import Mathlib

/-
Verification of the Team X-Ray expertise-analysis engine.

The deterministic core (scoring, specialization detection, file ownership,
team health, insight synthesis, assembly) is modelled from the specification,
since only its simulations (evals), consumers (report generator) and
utilities (validator) ship in the repository sources. The report generator
(src/core/report-generator.ts) and the validator path sanitizer
(utils/validation.ts) are embedded directly from their TypeScript sources.
JavaScript numbers appearing in the embedded code are modelled as ℚ, integer
counters as ℕ/ℤ, and JS strings as Lean strings whose operations are defined
over their character lists.
-/

/-! ## Basic helpers: JS-style rounding and string search -/

/-- Models JavaScript Math.round on a rational: half-integers round toward
positive infinity. -/
def jsRound (q : ℚ) : ℤ := ⌊q + 1/2⌋

/-- Computable integer form of round(100 * num / den), used so that concrete
runs of the engine reduce inside the kernel. `roundPct_eq_jsRound` proves it
agrees with `jsRound`. -/
def roundPct (num den : Nat) : ℤ := ((200 * num + den) / (2 * den) : Nat)

theorem roundPct_eq_jsRound (n d : Nat) :
    roundPct n d = jsRound ((100 * n : ℚ) / d) := by
  unfold roundPct jsRound
  rcases Nat.eq_zero_or_pos d with hd | hd
  · subst hd
    norm_num
  · have hd0 : (d : ℚ) ≠ 0 := by positivity
    have key : (100 * n : ℚ) / d + 1/2 = ((200 * n + d : ℕ) : ℚ) / ((2 * d : ℕ) : ℚ) := by
      push_cast
      field_simp
      ring
    rw [key]
    rw [show (((200 * n + d : ℕ) : ℚ)) = ((200 * n + d : ℕ) : ℤ) by push_cast; ring]
    rw [Rat.floor_intCast_div_natCast]
    rw [Int.natCast_div]

theorem roundPct_nonneg (n d : Nat) : 0 ≤ roundPct n d := Int.natCast_nonneg _

theorem jsRound_le_100 (q : ℚ) (h : q ≤ 100) : jsRound q ≤ 100 := by
  unfold jsRound
  have h1 : ⌊q + 1/2⌋ ≤ ⌊(100 : ℚ) + 1/2⌋ := Int.floor_le_floor (by linarith)
  have h2 : ⌊(100 : ℚ) + 1/2⌋ = 100 := by
    rw [Int.floor_eq_iff]
    norm_num
  omega

theorem jsRound_100 : jsRound 100 = 100 := by
  unfold jsRound
  rw [Int.floor_eq_iff]
  norm_num

theorem roundPct_le_100 (n d : Nat) (hnd : n ≤ d) (hd : 0 < d) : roundPct n d ≤ 100 := by
  rw [roundPct_eq_jsRound]
  apply jsRound_le_100
  have hdq : (0 : ℚ) < d := by exact_mod_cast hd
  rw [div_le_iff₀ hdq]
  have : (n : ℚ) ≤ d := by exact_mod_cast hnd
  linarith

theorem roundPct_self (d : Nat) (hd : 0 < d) : roundPct d d = 100 := by
  rw [roundPct_eq_jsRound]
  have hdq : (d : ℚ) ≠ 0 := by positivity
  rw [mul_div_assoc, div_self hdq, mul_one]
  exact jsRound_100

/-- Models JS String.prototype.includes over character lists. -/
def hasInfix : List Char → List Char → Bool
  | [], pat => pat.isEmpty
  | h :: t, pat => pat.isPrefixOf (h :: t) || hasInfix t pat

/-- Models msg.toLowerCase().includes(keyword) from the source. -/
def lowerContains (s keyword : String) : Bool :=
  hasInfix (s.toList.map Char.toLower) keyword.toList

/-! ## Data model

Modelled from the spec: the `RepositoryActivity` input snapshot and the
`ExpertiseAnalysis` output aggregate of spec sections 3 and 4; the engine
itself (core/expertise-analyzer.ts) is not among the repository sources. -/

/-- Modelled from the spec: ContributorStats of the missing normalized
activity model (spec section 3); identity is the email key. -/
structure ContributorStats where
  name : String
  email : String
  commitCount : Nat
  lastCommitTimestamp : Int
deriving DecidableEq

/-- Modelled from the spec: CommitRecord of the missing activity model
(spec section 3). -/
structure CommitRecord where
  authorEmail : String
  message : String
  timestamp : Int
  changedPaths : List String
deriving DecidableEq

/-- Modelled from the spec: the RepositoryActivity snapshot (spec section 3).
The file-to-contributors mapping is kept as an insertion-ordered
association list, matching JS object key order. -/
structure RepositoryActivity where
  repositoryId : String
  commits : List CommitRecord
  contributors : List ContributorStats
  fileContributors : List (String × List String)
deriving DecidableEq

/-- Modelled from the spec: the ExpertProfile output record (spec section 3);
the optional AI narrative fields are absent in the deterministic core. -/
structure ExpertProfile where
  name : String
  email : String
  expertisePercent : ℤ
  contributions : Nat
  lastCommit : Int
  specializations : List String
deriving DecidableEq

/-- Modelled from the spec: one ranked expert entry of FileExpertise
(spec section 3). -/
structure FileExpert where
  name : String
  email : String
  score : ℚ
  lastCommit : Int
deriving DecidableEq

/-- Modelled from the spec: the FileExpertise output record (spec section 3). -/
structure FileExpertise where
  filePath : String
  fileName : String
  experts : List FileExpert
  changeFrequency : String
deriving DecidableEq

/-- Modelled from the spec: TeamHealthMetrics (spec sections 3 and 4.4). -/
structure TeamHealth where
  riskScore : ℚ
  knowledgeSharing : ℤ
deriving DecidableEq

/-- Modelled from the spec: a ManagementInsight record (spec section 3). -/
structure ManagementInsight where
  category : String
  priority : String
  title : String
  description : String
  timeline : String
  impact : String
  actionItems : List String
deriving DecidableEq

/-- Modelled from the spec: the ExpertiseAnalysis root aggregate
(spec section 3). -/
structure ExpertiseAnalysis where
  repository : String
  totalFiles : Nat
  expertProfiles : List ExpertProfile
  fileExpertise : List FileExpertise
  teamHealthMetrics : TeamHealth
  managementInsights : List ManagementInsight
deriving DecidableEq

/-- Modelled from the spec: the error taxonomy of spec section 7 for the
missing Analysis Assembler; per the section 4.6 contract the assembler
itself fails only on an empty contributor set. -/
inductive AnalysisError where
  | emptyActivity
deriving DecidableEq

/-! ## Scoring Engine

Modelled from the spec: section 4.1; the Scoring Engine source is not in
the repository files (the starter eval simulates it). -/

/-- Modelled from the spec: the largest commitCount across all contributors
(spec section 4.1); the missing Scoring Engine normalizes against it. -/
def maxContributions (A : RepositoryActivity) : Nat :=
  (A.contributors.map ContributorStats.commitCount).foldl max 0

theorem foldl_max_init_le (l : List Nat) : ∀ a : Nat, a ≤ l.foldl max a := by
  induction l with
  | nil => intro a; simp
  | cons x xs ih =>
    intro a
    simp only [List.foldl_cons]
    exact le_trans (le_max_left a x) (ih (max a x))

theorem le_foldl_max_of_mem (l : List Nat) (x : Nat) (hx : x ∈ l) :
    ∀ a : Nat, x ≤ l.foldl max a := by
  induction l with
  | nil => cases hx
  | cons y ys ih =>
    intro a
    simp only [List.foldl_cons]
    rcases List.mem_cons.mp hx with h | h
    · subst h
      exact le_trans (le_max_right a x) (foldl_max_init_le ys _)
    · exact ih h _

theorem foldl_max_mem_or_init (l : List Nat) : ∀ a : Nat,
    l.foldl max a ∈ l ∨ l.foldl max a = a := by
  induction l with
  | nil => intro a; simp
  | cons x xs ih =>
    intro a
    simp only [List.foldl_cons]
    rcases ih (max a x) with h | h
    · exact Or.inl (List.mem_cons_of_mem _ h)
    · rcases max_choice a x with h2 | h2
      · exact Or.inr (h.trans h2)
      · exact Or.inl (List.mem_cons.mpr (Or.inl (h.trans h2)))

/-! ## Team Health Evaluator: collaboration metric

Modelled from the spec: section 4.4; the Team Health Evaluator source is not
in the repository files (the starter and real-analysis evals simulate it
with the keyword set embedded below). -/

/-- Modelled from the spec: the fixed collaboration keyword set of spec
section 4.4, as listed there and in evals/starter.eval.ts. -/
def collaborationKeywords : List String := ["review", "merge", "pair", "thanks", "helped"]

/-- Modelled from the spec: a commit message matches when it contains any
collaboration keyword case-insensitively. -/
def isCollabMessage (msg : String) : Bool :=
  collaborationKeywords.any (fun keyword => lowerContains msg keyword)

/-- Count of commit messages matching the collaboration keyword set. -/
def countCollab (msgs : List String) : Nat := (msgs.filter isCollabMessage).length

/-- Modelled from the spec: collaborationMetrics.knowledgeSharing — the
fraction of all commits whose message matches the keyword set, scaled to
0-100 and rounded (spec section 4.4). -/
def knowledgeSharing (msgs : List String) : ℤ := roundPct (countCollab msgs) msgs.length

/-! ## Specialization Detector

Modelled from the spec: section 4.2; the Specialization Detector source is
not in the repository files (the real-analysis eval simulates it). -/

/-- Modelled from the spec: one row of the pattern table of spec
section 4.2 — case-insensitive message keywords and path substring
patterns, mapped to one label. -/
structure SpecRule where
  msgKeywords : List String
  pathPatterns : List String
  label : String
deriving DecidableEq

/-- Modelled from the spec: a commit matches a rule when any keyword occurs
case-insensitively in its message or any path pattern occurs in one of its
changed paths (spec section 4.2). -/
def ruleMatches (r : SpecRule) (c : CommitRecord) : Bool :=
  r.msgKeywords.any (fun keyword => lowerContains c.message keyword) ||
    r.pathPatterns.any (fun pat => c.changedPaths.any (fun f => hasInfix f.toList pat.toList))

/-- Modelled from the spec: the fixed default pattern table (spec
section 4.2 and the real-analysis eval). -/
def defaultSpecTable : List SpecRule :=
  [⟨["auth"], [], "Authentication"⟩,
   ⟨["security"], [], "Security"⟩,
   ⟨["react"], [], "React"⟩,
   ⟨["typescript"], [], "TypeScript"⟩,
   ⟨[], [".tsx", ".jsx", "ui/", "components/"], "Frontend"⟩]

/-- Stable sort of commits oldest-to-newest by timestamp (spec section 4.2:
recency is derived from timestamps, not from input order). -/
def sortByTimestamp (commits : List CommitRecord) : List CommitRecord :=
  List.insertionSort (fun a b => a.timestamp ≤ b.timestamp) commits

/-- Labels emitted while scanning the timestamp-ordered commits against the
table, duplicates included, in scan order. -/
def scanLabels (table : List SpecRule) (commits : List CommitRecord) : List String :=
  (sortByTimestamp commits).flatMap
    (fun c => (table.filter (fun r => ruleMatches r c)).map SpecRule.label)

/-- Models inserting a label into a JS Set: appended once on first
occurrence, ignored afterwards. -/
def specInsert (acc : List String) (l : String) : List String :=
  if l ∈ acc then acc else acc ++ [l]

/-- Modelled from the spec: the detector returns the deduplicated label
sequence in first-occurrence order over the oldest-to-newest scan
(spec section 4.2). -/
def detectSpecializations (table : List SpecRule) (commits : List CommitRecord) : List String :=
  (scanLabels table commits).foldl specInsert []

/-- Reference first-occurrence deduplication: keeps the first copy of every
element, in order. -/
def dedupFirst : List String → List String
  | [] => []
  | x :: xs => x :: dedupFirst (xs.filter (fun y => y ≠ x))
termination_by l => l.length
decreasing_by
  simp only [List.length_cons]
  exact Nat.lt_succ_of_le (List.length_filter_le _ _)

theorem dedupFirst_subset (l : List String) : ∀ y ∈ dedupFirst l, y ∈ l := by
  induction l using dedupFirst.induct with
  | case1 => simp [dedupFirst]
  | case2 x xs ih =>
    rw [dedupFirst]
    intro y hy
    rcases List.mem_cons.mp hy with h | h
    · exact h ▸ List.mem_cons_self _ _
    · exact List.mem_cons_of_mem _ (List.mem_of_mem_filter (ih y h))

theorem mem_dedupFirst_of_mem (l : List String) : ∀ y ∈ l, y ∈ dedupFirst l := by
  induction l using dedupFirst.induct with
  | case1 => simp
  | case2 x xs ih =>
    rw [dedupFirst]
    intro y hy
    rcases List.mem_cons.mp hy with h | h
    · exact h ▸ List.mem_cons_self _ _
    · by_cases hyx : y = x
      · exact hyx ▸ List.mem_cons_self _ _
      · exact List.mem_cons_of_mem _ (ih y (List.mem_filter.mpr ⟨h, by simpa using hyx⟩))

theorem dedupFirst_nodup (l : List String) : (dedupFirst l).Nodup := by
  induction l using dedupFirst.induct with
  | case1 => simp [dedupFirst]
  | case2 x xs ih =>
    rw [dedupFirst]
    refine List.nodup_cons.mpr ⟨?_, ih⟩
    intro hmem
    have h2 := dedupFirst_subset _ x hmem
    have := List.of_mem_filter h2
    simp at this

theorem dedupFirst_eq_nil (l : List String) : dedupFirst l = [] ↔ l = [] := by
  constructor
  · intro h
    cases l with
    | nil => rfl
    | cons x xs => rw [dedupFirst] at h; exact absurd h (by simp)
  · intro h; subst h; rw [dedupFirst]

theorem foldl_specInsert (n : Nat) : ∀ xs : List String, xs.length ≤ n →
    ∀ acc : List String,
    xs.foldl specInsert acc = acc ++ dedupFirst (xs.filter (fun x => x ∉ acc)) := by
  induction n with
  | zero =>
    intro xs hlen acc
    have : xs = [] := List.eq_nil_of_length_eq_zero (Nat.le_zero.mp hlen)
    subst this
    simp [dedupFirst]
  | succ n ih =>
    intro xs hlen acc
    cases xs with
    | nil => simp [dedupFirst]
    | cons x xs =>
      simp only [List.foldl_cons]
      by_cases hx : x ∈ acc
      · rw [show specInsert acc x = acc from if_pos hx]
        rw [ih xs (by simpa using Nat.succ_le_succ_iff.mp hlen) acc]
        congr 1
        congr 1
        simp only [List.filter_cons]
        rw [if_neg (by simpa using hx)]
      · rw [show specInsert acc x = acc ++ [x] from if_neg hx]
        rw [ih xs (by simpa using Nat.succ_le_succ_iff.mp hlen) (acc ++ [x])]
        simp only [List.filter_cons]
        rw [if_pos (by simpa using hx)]
        rw [dedupFirst]
        have hfilter : xs.filter (fun y => y ∉ acc ++ [x]) =
            (xs.filter (fun y => y ∉ acc)).filter (fun y => y ≠ x) := by
          rw [List.filter_filter]
          apply List.filter_congr
          intro a _
          simp [List.mem_append, not_or, and_comm]
        rw [hfilter]
        simp

theorem detectSpecializations_eq_dedupFirst (table : List SpecRule)
    (commits : List CommitRecord) :
    detectSpecializations table commits = dedupFirst (scanLabels table commits) := by
  unfold detectSpecializations
  rw [foldl_specInsert (scanLabels table commits).length _ le_rfl []]
  simp

/-! ## Expert profiles and their display order

Modelled from the spec: sections 4.1 and 3; the Scoring Engine source is
not in the repository files. -/

/-- Commits authored by one contributor identity. -/
def commitsBy (A : RepositoryActivity) (email : String) : List CommitRecord :=
  A.commits.filter (fun c => c.authorEmail == email)

/-- Modelled from the spec: the profile the missing Scoring Engine and
Specialization Detector produce for one contributor (spec sections 4.1
and 4.2). -/
def mkProfile (A : RepositoryActivity) (c : ContributorStats) : ExpertProfile :=
  { name := c.name
    email := c.email
    expertisePercent := roundPct c.commitCount (maxContributions A)
    contributions := c.commitCount
    lastCommit := c.lastCommitTimestamp
    specializations := detectSpecializations defaultSpecTable (commitsBy A c.email) }

/-- Modelled from the spec: the display order of spec sections 3 and 4.1 —
descending expertisePercent, then contributions, then more recent
lastCommit, then email ascending. -/
def profLE (p q : ExpertProfile) : Prop :=
  q.expertisePercent < p.expertisePercent ∨
    (p.expertisePercent = q.expertisePercent ∧
      (q.contributions < p.contributions ∨
        (p.contributions = q.contributions ∧
          (q.lastCommit < p.lastCommit ∨
            (p.lastCommit = q.lastCommit ∧ p.email.toList ≤ q.email.toList)))))

instance : DecidableRel profLE := fun p q => by
  unfold profLE
  infer_instance

/-- Modelled from the spec: the sorted expertProfiles sequence of the
analysis (spec section 4.6). -/
def expertProfilesOf (A : RepositoryActivity) : List ExpertProfile :=
  List.insertionSort profLE (A.contributors.map (mkProfile A))

/-! ## File Ownership Mapper

Modelled from the spec: section 4.3; the File Ownership Mapper source is
not in the repository files (the real-analysis eval simulates it). -/

/-- Count of commits by one contributor whose changedPaths include the
file (spec section 4.3: touches). -/
def touchesBy (A : RepositoryActivity) (path email : String) : Nat :=
  (A.commits.filter (fun c => c.authorEmail == email && c.changedPaths.contains path)).length

/-- Total touch count of one file across all commits. -/
def fileTouches (A : RepositoryActivity) (path : String) : Nat :=
  (A.commits.filter (fun c => c.changedPaths.contains path)).length

/-- Modelled from the spec: a candidate's per-file score — global
expertisePercent weighted by the fraction of the file's touches
attributable to them (spec section 4.3). -/
def expertScore (A : RepositoryActivity) (path : String) (c : ContributorStats) : ℚ :=
  (roundPct c.commitCount (maxContributions A) : ℚ) *
    ((touchesBy A path c.email : ℚ) / (fileTouches A path : ℚ))

/-- One ranked entry of a file's expert list. -/
def mkFileExpert (A : RepositoryActivity) (path : String) (c : ContributorStats) : FileExpert :=
  { name := c.name
    email := c.email
    score := expertScore A path c
    lastCommit := c.lastCommitTimestamp }

/-- Modelled from the spec: the per-file ranking order of spec
section 4.3 — descending score, ties by more recent lastCommit, then
email ascending. -/
def expGE (a b : FileExpert) : Prop :=
  b.score < a.score ∨
    (a.score = b.score ∧
      (b.lastCommit < a.lastCommit ∨
        (a.lastCommit = b.lastCommit ∧ a.email.toList ≤ b.email.toList)))

instance : DecidableRel expGE := fun a b => by
  unfold expGE
  infer_instance

instance : IsTotal FileExpert expGE := by
  constructor
  intro a b
  rcases lt_trichotomy a.score b.score with h | h | h
  · exact Or.inr (Or.inl h)
  · rcases lt_trichotomy a.lastCommit b.lastCommit with h2 | h2 | h2
    · exact Or.inr (Or.inr ⟨h.symm, Or.inl h2⟩)
    · rcases le_total a.email.toList b.email.toList with h3 | h3
      · exact Or.inl (Or.inr ⟨h, Or.inr ⟨h2, h3⟩⟩)
      · exact Or.inr (Or.inr ⟨h.symm, Or.inr ⟨h2.symm, h3⟩⟩)
    · exact Or.inl (Or.inr ⟨h, Or.inl h2⟩)
  · exact Or.inl (Or.inl h)

instance : IsTrans FileExpert expGE := by
  constructor
  intro a b c hab hbc
  rcases hab with h1 | ⟨h1, h2⟩
  · rcases hbc with h3 | ⟨h3, _⟩
    · exact Or.inl (h3.trans h1)
    · exact Or.inl (h3 ▸ h1)
  · rcases hbc with h3 | ⟨h3, h4⟩
    · exact Or.inl (h1 ▸ h3)
    · refine Or.inr ⟨h1.trans h3, ?_⟩
      rcases h2 with h2 | ⟨h2, h5⟩
      · rcases h4 with h4 | ⟨h4, _⟩
        · exact Or.inl (h4.trans h2)
        · exact Or.inl (h4 ▸ h2)
      · rcases h4 with h4 | ⟨h4, h6⟩
        · exact Or.inl (h2 ▸ h4)
        · exact Or.inr ⟨h2.trans h4, h5.trans h6⟩

/-- Modelled from the spec: the ranked expert list of one file — candidates
are the file's contributor identities resolved in the contributor map,
ranked by weighted score (spec section 4.3). -/
def fileExperts (A : RepositoryActivity) (path : String) (ids : List String) : List FileExpert :=
  List.insertionSort expGE
    ((ids.filterMap (fun id => A.contributors.find? (fun c => c.email == id))).map
      (mkFileExpert A path))

/-- Models filePath.split sep .pop: the basename of a path. -/
def splitOnSlash : List Char → List (List Char)
  | [] => [[]]
  | c :: t =>
    let r := splitOnSlash t
    if c = '/' then [] :: r
    else
      match r with
      | [] => [[c]]
      | h :: t2 => (c :: h) :: t2

/-- Basename of a file path. -/
def fileNameOf (path : String) : String :=
  ((splitOnSlash path.toList).getLastD []).asString

/-- Modelled from the spec: the coarse change-frequency tier over the
repository's touch-count distribution — top third high, middle third
medium, bottom third low (spec section 4.3; exact cut points are a
tunable constant there). -/
def changeFrequencyOf (A : RepositoryActivity) (path : String) : String :=
  let touches := fileTouches A path
  let all := A.fileContributors.map (fun pr => fileTouches A pr.1)
  let n := all.length
  let below := (all.filter (fun t => t < touches)).length
  if 2 * n ≤ 3 * below then "high"
  else if n ≤ 3 * below then "medium"
  else "low"

/-- Modelled from the spec: one FileExpertise record of the analysis
(spec sections 3 and 4.3). -/
def mkFileExpertise (A : RepositoryActivity) (pr : String × List String) : FileExpertise :=
  { filePath := pr.1
    fileName := fileNameOf pr.1
    experts := fileExperts A pr.1 pr.2
    changeFrequency := changeFrequencyOf A pr.1 }

/-- Modelled from the spec: one FileExpertise per distinct path in the
snapshot's file map (spec section 4.3). -/
def fileExpertiseOf (A : RepositoryActivity) : List FileExpertise :=
  A.fileContributors.map (mkFileExpertise A)

/-! ## Team Health Evaluator: risk score and assembly

Modelled from the spec: sections 4.4, 4.5 and 4.6; these component sources
are not in the repository files. -/

/-- Total commit count over all contributors. -/
def totalCommitsOf (A : RepositoryActivity) : Nat :=
  (A.contributors.map ContributorStats.commitCount).sum

/-- Modelled from the spec: the knowledge-concentration risk score of spec
section 4.4 — 100 * (topShare - fairShare) / (1 - fairShare) clamped to
[0, 100], and 100 outright for a single contributor. -/
def riskScoreOf (A : RepositoryActivity) : ℚ :=
  let n := A.contributors.length
  if n = 1 then 100
  else
    let topShare : ℚ := (maxContributions A : ℚ) / (totalCommitsOf A : ℚ)
    let fairShare : ℚ := 1 / (n : ℚ)
    let raw := 100 * (topShare - fairShare) / (1 - fairShare)
    max 0 (min 100 raw)

/-- Modelled from the spec: TeamHealthMetrics assembly (spec section 4.4). -/
def teamHealthOf (A : RepositoryActivity) : TeamHealth :=
  { riskScore := riskScoreOf A
    knowledgeSharing := knowledgeSharing (A.commits.map CommitRecord.message) }

/-- Modelled from the spec: the Risk/High single-point-of-failure insight of
spec section 4.5. -/
def riskInsight : ManagementInsight :=
  { category := "Risk"
    priority := "High"
    title := "Knowledge concentration risk"
    description := "A single contributor dominates the commit history."
    timeline := "1-2 weeks"
    impact := "Reduced single-point-of-failure exposure"
    actionItems := ["Schedule knowledge sharing sessions", "Document critical workflows"] }

/-- Modelled from the spec: the Opportunity/Medium collaboration-gap insight
of spec section 4.5. -/
def collaborationInsight : ManagementInsight :=
  { category := "Opportunity"
    priority := "Medium"
    title := "Collaboration gap"
    description := "Few commit messages show collaborative activity."
    timeline := "2-4 weeks"
    impact := "Improved knowledge distribution"
    actionItems := ["Introduce code review rotations", "Encourage pair programming"] }

/-- Modelled from the spec: the generic no-acute-signal insight emitted when
no rule fires (spec section 4.5). -/
def genericInsight : ManagementInsight :=
  { category := "Growth"
    priority := "Low"
    title := "No acute signal"
    description := "No acute team-health signal was detected."
    timeline := "Ongoing"
    impact := "Sustained team health"
    actionItems := ["Keep monitoring team activity"] }

/-- Modelled from the spec: the Insight Synthesizer rule table of spec
section 4.5 — independent guards in fixed order, generic set when none
fires. -/
def synthesizeInsights (t : TeamHealth) : List ManagementInsight :=
  let fired :=
    (if 70 < t.riskScore then [riskInsight] else []) ++
      (if t.knowledgeSharing < 50 then [collaborationInsight] else [])
  if fired.isEmpty then [genericInsight] else fired

/-! ## Analysis Assembler

Modelled from the spec: section 4.6; the Analysis Assembler source is not
in the repository files. -/

/-- Modelled from the spec: the fully populated analysis the assembler
composes from one activity snapshot (spec section 4.6). -/
def mkAnalysis (A : RepositoryActivity) : ExpertiseAnalysis :=
  { repository := A.repositoryId
    totalFiles := A.fileContributors.length
    expertProfiles := expertProfilesOf A
    fileExpertise := fileExpertiseOf A
    teamHealthMetrics := teamHealthOf A
    managementInsights := synthesizeInsights (teamHealthOf A) }

/-- Modelled from the spec: the assembler entry point — fails with
EmptyActivityError on zero contributors, otherwise returns the fully
populated analysis (spec section 4.6). -/
def assemble (A : RepositoryActivity) : Except AnalysisError ExpertiseAnalysis :=
  if A.contributors = [] then Except.error AnalysisError.emptyActivity
  else Except.ok (mkAnalysis A)

theorem assemble_eq_ok (A : RepositoryActivity) (r : ExpertiseAnalysis) :
    assemble A = Except.ok r ↔ (A.contributors ≠ [] ∧ r = mkAnalysis A) := by
  unfold assemble
  by_cases h : A.contributors = []
  · simp [h]
  · simp only [if_neg h]
    constructor
    · intro he
      exact ⟨h, (Except.ok.injEq _ _).mp he.symm⟩
    · intro ⟨_, hr⟩
      rw [hr]

/-! ## Report generator (embedded from src/core/report-generator.ts)

The TypeScript interfaces reaching `generateRecommendations` make the
teamHealthMetrics object and its two sub-objects optional; the embedded
records keep that shape. -/

/-- Embeds the knowledgeDistribution object consumed by the report
generator. -/
structure RGKnowledgeDistribution where
  riskScore : ℚ
deriving DecidableEq

/-- Embeds the collaborationMetrics object consumed by the report
generator. -/
structure RGCollaborationMetrics where
  knowledgeSharing : ℚ
deriving DecidableEq

/-- Embeds the teamHealthMetrics object consumed by the report generator,
with both sub-objects optional as in the TypeScript optional chaining. -/
structure RGTeamHealthMetrics where
  knowledgeDistribution : Option RGKnowledgeDistribution
  collaborationMetrics : Option RGCollaborationMetrics
deriving DecidableEq

/-- Embeds teamHealthMetrics?.knowledgeDistribution?.riskScore ?? 0 from
generateRecommendations. -/
def rgRiskScore (m : Option RGTeamHealthMetrics) : ℚ :=
  ((m.bind RGTeamHealthMetrics.knowledgeDistribution).map RGKnowledgeDistribution.riskScore).getD 0

/-- Embeds teamHealthMetrics?.collaborationMetrics?.knowledgeSharing ?? 0
from generateRecommendations. -/
def rgSharingScore (m : Option RGTeamHealthMetrics) : ℚ :=
  ((m.bind RGTeamHealthMetrics.collaborationMetrics).map RGCollaborationMetrics.knowledgeSharing).getD 0

/-- The knowledge-distribution recommendation string of
generateRecommendations. -/
def recKnowledge : String :=
  "Implement regular knowledge sharing sessions and documentation sprints"

/-- The collaboration recommendation string of generateRecommendations. -/
def recCollaboration : String :=
  "Establish regular code review rotations and pair programming sessions"

/-- The general recommendations generateRecommendations pushes when no
metric-guarded rule fired. -/
def genericRecommendations : List String :=
  ["Consider implementing pair programming sessions to distribute knowledge",
   "Document key workflows and architectural decisions",
   "Set up regular technical sharing sessions"]

/-- The recommendations the two metric-guarded pushes of
generateRecommendations accumulate: the knowledge recommendation when
riskScore > 70, then the collaboration recommendation when
knowledgeSharing < 50. -/
def recsFired (m : Option RGTeamHealthMetrics) : List String :=
  (if 70 < rgRiskScore m then [recKnowledge] else []) ++
    (if rgSharingScore m < 50 then [recCollaboration] else [])

/-- Embeds ReportGenerator.generateRecommendations (the recommendation list
before HTML formatting): the accumulated guarded recommendations, falling
back to the general recommendations when none was pushed. -/
def generateRecommendations (m : Option RGTeamHealthMetrics) : List String :=
  if (recsFired m).isEmpty then genericRecommendations else recsFired m

/-- Embeds the in-place Array.prototype.sort call of
generateAnalysisSummary: a stable sort by the comparator
(a, b) => b.contributions - a.contributions. -/
def sortByContributionsDesc (l : List ExpertProfile) : List ExpertProfile :=
  List.insertionSort (fun a b => b.contributions ≤ a.contributions) l

/-- Embeds ReportGenerator.generateAnalysisSummary. JS Array.prototype.sort
mutates the array it is called on, so the model returns both the summary
string and the post-call state of analysis.expertProfiles. -/
def generateAnalysisSummary (profiles : List ExpertProfile) : String × List ExpertProfile :=
  let sorted := sortByContributionsDesc profiles
  match sorted.head? with
  | none => ("No team analysis available.", sorted)
  | some top =>
    (top.name ++ " is the primary contributor and a potential bottleneck for CI/CD expertise.",
      sorted)

/-- State of analysis.expertProfiles after generateHTMLReport ran (its AI
section calls generateAnalysisSummary on the analysis). -/
def profilesAfterHTMLReport (profiles : List ExpertProfile) : List ExpertProfile :=
  (generateAnalysisSummary profiles).2

/-- Embeds the primary-expert selection of generateCSV: the first element
of a file's experts list. -/
def csvPrimaryExpert (f : FileExpertise) : Option FileExpert :=
  f.experts.head?

/-! ## Validator path sanitizer (embedded from utils/validation.ts)

Node's posix path.resolve and path.normalize are embedded over character
lists; the process working directory enters as an explicit `cwd`
argument. -/

/-- Does a character list start with the path separator. -/
def headIsSlash : List Char → Bool
  | '/' :: _ => true
  | _ => false

/-- Does a character list end with the path separator. -/
def lastIsSlash (l : List Char) : Bool :=
  match l.getLast? with
  | some '/' => true
  | _ => false

/-- Embeds one step of Node's normalizeString segment walk: skip empty and
dot segments, resolve dot-dot against the stack (kept above the root only
when allowAboveRoot), push anything else. The accumulator is the reversed
segment stack. -/
def normStep (allowAboveRoot : Bool) (acc : List (List Char)) (s : List Char) :
    List (List Char) :=
  if s = [] ∨ s = ['.'] then acc
  else if s = ['.', '.'] then
    match acc with
    | [] => if allowAboveRoot then [['.', '.']] else []
    | t :: rest =>
      if t = ['.', '.'] then (if allowAboveRoot then ['.', '.'] :: acc else acc) else rest
  else s :: acc

/-- Embeds Node's normalizeString: resolve dot and dot-dot segments and
collapse repeated separators. -/
def normalizeString (allowAboveRoot : Bool) (l : List Char) : List Char :=
  List.intercalate ['/'] (((splitOnSlash l).foldl (normStep allowAboveRoot) []).reverse)

/-- Embeds the right-to-left argument walk of Node posix path.resolve:
prepend arguments until one is absolute, falling back to the working
directory. -/
def resolveGo (cwdL : List Char) : List (List Char) → List Char → List Char × Bool
  | [], acc => if cwdL = [] then (acc, false) else (cwdL ++ '/' :: acc, headIsSlash cwdL)
  | p :: rest, acc =>
    if p = [] then resolveGo cwdL rest acc
    else
      let acc2 := p ++ '/' :: acc
      if headIsSlash p then (acc2, true) else resolveGo cwdL rest acc2

/-- Embeds Node posix path.resolve over a list of path arguments, with the
process working directory as the first parameter. -/
def presolve (cwd : String) (ps : List String) : String :=
  let pr := resolveGo cwd.toList ((ps.map String.toList).reverse) []
  let r := normalizeString (!pr.2) pr.1
  if pr.2 then ('/' :: r).asString
  else if r = [] then "." else r.asString

/-- Embeds Node posix path.normalize. -/
def pnormalize (p : String) : String :=
  let l := p.toList
  if l = [] then "." else
  let isAbs := headIsSlash l
  let trailing := lastIsSlash l
  let r := normalizeString (!isAbs) l
  if r = [] then (if isAbs then "/" else if trailing then "./" else ".")
  else
    let r2 := if trailing then r ++ ['/'] else r
    if isAbs then ('/' :: r2).asString else r2.asString

/-- Models JS String.prototype.startsWith. -/
def strStartsWith (s pre : String) : Bool := pre.toList.isPrefixOf s.toList

/-- Models JS String.prototype.endsWith for the separator check. -/
def strEndsWith (s suf : String) : Bool := suf.toList.isSuffixOf s.toList

/-- Embeds the conditional separator suffixing of sanitizeFilePath. -/
def withSep (s : String) : String := if strEndsWith s "/" then s else s ++ "/"

/-- Embeds Validator.sanitizeFilePath: resolve the workspace root, normalize
and resolve the file path against it, and reject any result that is neither
the root itself nor prefixed (separator-extended) by the root. -/
def sanitizeFilePath (cwd filePath workspaceRoot : String) : Except String String :=
  let resolvedWorkspaceRoot := presolve cwd [workspaceRoot]
  let normalized := pnormalize filePath
  let resolved := presolve cwd [resolvedWorkspaceRoot, normalized]
  let workspaceWithSep := withSep resolvedWorkspaceRoot
  let resolvedWithSep := withSep resolved
  if resolved ≠ resolvedWorkspaceRoot ∧ strStartsWith resolvedWithSep workspaceWithSep = false
  then Except.error "Path traversal detected"
  else Except.ok resolved

theorem resolveGo_snd (cwdL : List Char) (h : headIsSlash cwdL = true) :
    ∀ l acc, (resolveGo cwdL l acc).2 = true := by
  intro l
  induction l with
  | nil =>
    intro acc
    unfold resolveGo
    have hne : cwdL ≠ [] := by
      intro he
      rw [he] at h
      simp [headIsSlash] at h
    simp [hne, h]
  | cons p rest ih =>
    intro acc
    unfold resolveGo
    by_cases hp : p = []
    · simp only [if_pos hp]
      exact ih acc
    · simp only [if_neg hp]
      by_cases habs : headIsSlash p
      · simp [habs]
      · simp only [habs, Bool.false_eq_true, if_neg]
        exact ih _

theorem presolve_abs (cwd : String) (ps : List String)
    (h : headIsSlash cwd.toList = true) :
    headIsSlash (presolve cwd ps).toList = true := by
  simp only [presolve, resolveGo_snd cwd.toList h, if_true]
  rfl

/-! ## Helper lemmas for the claims -/

theorem mem_expertProfilesOf {A : RepositoryActivity} {p : ExpertProfile} :
    p ∈ expertProfilesOf A ↔ p ∈ A.contributors.map (mkProfile A) :=
  (List.perm_insertionSort profLE _).mem_iff

theorem expGE_score (a b : FileExpert) (h : expGE a b) : b.score ≤ a.score := by
  rcases h with h | ⟨h, _⟩
  · exact le_of_lt h
  · exact le_of_eq h.symm

theorem mem_scanLabels (table : List SpecRule) (commits : List CommitRecord) (lab : String) :
    lab ∈ scanLabels table commits ↔
      ∃ c ∈ commits, ∃ r ∈ table, ruleMatches r c = true ∧ r.label = lab := by
  unfold scanLabels sortByTimestamp
  simp only [List.mem_flatMap, List.mem_map, List.mem_filter]
  constructor
  · rintro ⟨c, hc, r, ⟨hrt, hrm⟩, hlab⟩
    exact ⟨c, (List.perm_insertionSort _ _).mem_iff.mp hc, r, hrt, hrm, hlab⟩
  · rintro ⟨c, hc, r, hrt, hrm, hlab⟩
    exact ⟨c, (List.perm_insertionSort _ _).mem_iff.mpr hc, r, ⟨hrt, hrm⟩, hlab⟩

theorem scanLabels_eq_nil (table : List SpecRule) (commits : List CommitRecord) :
    scanLabels table commits = [] ↔
      ∀ c ∈ commits, ∀ r ∈ table, ruleMatches r c = false := by
  unfold scanLabels sortByTimestamp
  rw [List.flatMap_eq_nil_iff]
  constructor
  · intro h c hc r hr
    have h2 := h c ((List.perm_insertionSort _ _).mem_iff.mpr hc)
    rw [List.map_eq_nil_iff, List.filter_eq_nil_iff] at h2
    simpa using h2 r hr
  · intro h c hc
    rw [List.map_eq_nil_iff, List.filter_eq_nil_iff]
    intro r hr
    simp [h c ((List.perm_insertionSort _ _).mem_iff.mp hc) r hr]

/-! ## Concrete scenarios from the spec -/

/-- Concrete scenario of spec section 8: Alice 150, Bob 85, Charlie 45. -/
def activityC1 : RepositoryActivity :=
  { repositoryId := "demo/repo"
    commits := []
    contributors :=
      [⟨"Alice Dev", "alice@example.com", 150, 0⟩,
       ⟨"Bob Engineer", "bob@example.com", 85, 0⟩,
       ⟨"Charlie Coder", "charlie@example.com", 45, 0⟩]
    fileContributors := [] }

/-- Concrete single-contributor scenario of spec section 8. -/
def activitySingle : RepositoryActivity :=
  { repositoryId := "demo/solo"
    commits := []
    contributors := [⟨"Sarah Smith", "sarah@example.com", 200, 0⟩]
    fileContributors := [] }

/-- Concrete commit-message scenario of spec section 8. -/
def scenarioMessages : List String :=
  ["Fixed bug", "Reviewed Alice\x27s PR", "Merged feature"]

/-! ## The claims -/

/-- Claim C1: every contributor's expertise percent equals
round(100 * contributions / maxContributions) with maxContributions the
largest commit count in the snapshot; on contributors with 150, 85 and 45
commits the profiles are ordered with the 150-commit contributor first at
100 percent and the 45-commit contributor third at 30 percent. -/
theorem claim_C1_expertise_percent :
    (∀ (A : RepositoryActivity) (r : ExpertiseAnalysis) (p : ExpertProfile),
        assemble A = Except.ok r → p ∈ r.expertProfiles →
        p.expertisePercent = jsRound ((100 * p.contributions : ℚ) / (maxContributions A))) ∧
    assemble activityC1 = Except.ok (mkAnalysis activityC1) ∧
    (mkAnalysis activityC1).expertProfiles.map (fun p => (p.name, p.expertisePercent)) =
      [("Alice Dev", 100), ("Bob Engineer", 57), ("Charlie Coder", 30)] := by
  refine ⟨?_, rfl, by decide⟩
  intro A r p hok hp
  obtain ⟨hne, hr⟩ := (assemble_eq_ok A r).mp hok
  subst hr
  obtain ⟨c, hc, hpc⟩ := List.mem_map.mp (mem_expertProfilesOf.mp hp)
  subst hpc
  simp only [mkProfile]
  exact roundPct_eq_jsRound _ _

/-- Claim C2: every computed expertise percent lies in [0, 100]; the
contributor(s) with maximal commit count score exactly 100; a single
contributor scores 100. -/
theorem claim_C2_score_bounds :
    (∀ (A : RepositoryActivity) (r : ExpertiseAnalysis),
        (∀ c ∈ A.contributors, 1 ≤ c.commitCount) →
        assemble A = Except.ok r →
        (∀ p ∈ r.expertProfiles, 0 ≤ p.expertisePercent ∧ p.expertisePercent ≤ 100) ∧
        (∃ p ∈ r.expertProfiles, p.expertisePercent = 100) ∧
        (∀ p ∈ r.expertProfiles, p.contributions = maxContributions A →
          p.expertisePercent = 100) ∧
        (A.contributors.length = 1 → r.expertProfiles.length = 1)) ∧
    assemble activitySingle = Except.ok (mkAnalysis activitySingle) ∧
    (mkAnalysis activitySingle).expertProfiles.map ExpertProfile.expertisePercent = [100] := by
  refine ⟨?_, rfl, by decide⟩
  intro A r hcounts hok
  obtain ⟨hne, hr⟩ := (assemble_eq_ok A r).mp hok
  subst hr
  obtain ⟨c₀, hc₀⟩ := List.exists_mem_of_ne_nil A.contributors hne
  have hmax_ge : ∀ c ∈ A.contributors, c.commitCount ≤ maxContributions A := by
    intro c hc
    exact le_foldl_max_of_mem _ _ (List.mem_map_of_mem _ hc) 0
  have hmax_pos : 0 < maxContributions A :=
    lt_of_lt_of_le (hcounts c₀ hc₀) (hmax_ge c₀ hc₀)
  refine ⟨?_, ?_, ?_, ?_⟩
  · intro p hp
    obtain ⟨c, hc, hpc⟩ := List.mem_map.mp (mem_expertProfilesOf.mp hp)
    subst hpc
    refine ⟨roundPct_nonneg _ _, ?_⟩
    exact roundPct_le_100 _ _ (hmax_ge c hc) hmax_pos
  · rcases foldl_max_mem_or_init (A.contributors.map ContributorStats.commitCount) 0
      with hmem | h0
    · obtain ⟨c, hc, hcc⟩ := List.mem_map.mp hmem
      refine ⟨mkProfile A c, mem_expertProfilesOf.mpr (List.mem_map_of_mem _ hc), ?_⟩
      show roundPct c.commitCount (maxContributions A) = 100
      rw [show c.commitCount = maxContributions A from hcc]
      exact roundPct_self _ hmax_pos
    · exfalso
      unfold maxContributions at hmax_pos
      omega
  · intro p hp hcont
    obtain ⟨c, hc, hpc⟩ := List.mem_map.mp (mem_expertProfilesOf.mp hp)
    subst hpc
    show roundPct c.commitCount (maxContributions A) = 100
    rw [show c.commitCount = maxContributions A from hcont]
    exact roundPct_self _ hmax_pos
  · intro hlen
    show (expertProfilesOf A).length = 1
    unfold expertProfilesOf
    rw [(List.perm_insertionSort _ _).length_eq, List.length_map]
    exact hlen

/-- Claim C3: assembly fails with EmptyActivityError exactly on a snapshot
with zero contributors and returns no partial result there; any snapshot
with at least one contributor yields the fully populated analysis. -/
theorem claim_C3_empty_activity : ∀ A : RepositoryActivity,
    (A.contributors = [] → assemble A = Except.error AnalysisError.emptyActivity) ∧
    (A.contributors ≠ [] → assemble A = Except.ok (mkAnalysis A)) ∧
    (∀ e, assemble A = Except.error e →
      e = AnalysisError.emptyActivity ∧ A.contributors = []) := by
  intro A
  refine ⟨?_, ?_, ?_⟩
  · intro h
    unfold assemble
    rw [if_pos h]
  · intro h
    unfold assemble
    rw [if_neg h]
  · intro e he
    cases e
    refine ⟨rfl, ?_⟩
    by_cases h : A.contributors = []
    · exact h
    · unfold assemble at he
      rw [if_neg h] at he
      exact absurd he (by simp)

/-- Claim C4: the knowledge-sharing metric is the fraction of commits whose
message contains a collaboration keyword case-insensitively, scaled to
0-100 and rounded; on the three scenario messages two of three match, so
the metric is 67 which is at least 66. -/
theorem claim_C4_knowledge_sharing :
    (∀ msgs : List String,
        knowledgeSharing msgs =
          jsRound ((100 * (msgs.filter isCollabMessage).length : ℚ) / msgs.length)) ∧
    countCollab scenarioMessages = 2 ∧
    knowledgeSharing scenarioMessages = 67 ∧
    66 ≤ knowledgeSharing scenarioMessages := by
  refine ⟨fun msgs => ?_, by decide, by decide, by decide⟩
  unfold knowledgeSharing countCollab
  exact roundPct_eq_jsRound _ _

/-- Claim C5: the recommendation rules fire independently — the knowledge
recommendation is emitted exactly when riskScore > 70, the collaboration
recommendation exactly when knowledgeSharing < 50, the generic set exactly
when neither guard holds — and the emitted list never has length zero. -/
theorem claim_C5_recommendations : ∀ m : Option RGTeamHealthMetrics,
    1 ≤ (generateRecommendations m).length ∧
    (recKnowledge ∈ generateRecommendations m ↔ 70 < rgRiskScore m) ∧
    (recCollaboration ∈ generateRecommendations m ↔ rgSharingScore m < 50) ∧
    (generateRecommendations m = genericRecommendations ↔
      (rgRiskScore m ≤ 70 ∧ 50 ≤ rgSharingScore m)) := by
  intro m
  by_cases h1 : 70 < rgRiskScore m
  · by_cases h2 : rgSharingScore m < 50
    · have hlist : generateRecommendations m = [recKnowledge, recCollaboration] := by
        unfold generateRecommendations recsFired
        rw [if_pos h1, if_pos h2]
        rfl
      rw [hlist]
      exact ⟨by simp, iff_of_true (by simp) h1, iff_of_true (by simp) h2,
        iff_of_false (by decide) (fun hc => absurd h1 (not_lt.mpr hc.1))⟩
    · have hlist : generateRecommendations m = [recKnowledge] := by
        unfold generateRecommendations recsFired
        rw [if_pos h1, if_neg h2]
        rfl
      rw [hlist]
      exact ⟨by simp, iff_of_true (by simp) h1, iff_of_false (by decide) h2,
        iff_of_false (by decide) (fun hc => absurd h1 (not_lt.mpr hc.1))⟩
  · by_cases h2 : rgSharingScore m < 50
    · have hlist : generateRecommendations m = [recCollaboration] := by
        unfold generateRecommendations recsFired
        rw [if_neg h1, if_pos h2]
        rfl
      rw [hlist]
      exact ⟨by simp, iff_of_false (by decide) h1, iff_of_true (by simp) h2,
        iff_of_false (by decide) (fun hc => absurd h2 (not_lt.mpr hc.2))⟩
    · have hlist : generateRecommendations m = genericRecommendations := by
        unfold generateRecommendations recsFired
        rw [if_neg h1, if_neg h2]
        rfl
      rw [hlist]
      exact ⟨by decide, iff_of_false (by decide) h1, iff_of_false (by decide) h2,
        iff_of_true rfl ⟨not_lt.mp h1, not_lt.mp h2⟩⟩

/-- Profile of a one-commit contributor, listed first in the failing
analysis for claim C6. -/
def profileLow : ExpertProfile :=
  ⟨"Alice Dev", "alice@example.com", 50, 1, 0, []⟩

/-- Profile of a two-commit contributor, listed second in the failing
analysis for claim C6. -/
def profileHigh : ExpertProfile :=
  ⟨"Bob Engineer", "bob@example.com", 100, 2, 0, []⟩

/-- Claim C6 is violated by the code: generateAnalysisSummary (reached from
generateHTMLReport) calls Array.prototype.sort on analysis.expertProfiles,
which sorts the array in place; on an analysis whose profiles are not
already in non-increasing contribution order the sequence is permanently
reordered, so report generation does mutate the analysis. -/
theorem claim_C6_mutation :
    profilesAfterHTMLReport [profileLow, profileHigh] = [profileHigh, profileLow] ∧
    profilesAfterHTMLReport [profileLow, profileHigh] ≠ [profileLow, profileHigh] ∧
    (generateAnalysisSummary [profileLow, profileHigh]).1 =
      "Bob Engineer is the primary contributor and a potential bottleneck for CI/CD expertise." := by
  refine ⟨by decide, by decide, rfl⟩

/-- Claim C7: detected specialization labels are exactly the
first-occurrence deduplication of the labels scanned oldest-to-newest by
timestamp: the result has no duplicate, keeps every matched label, and is
empty exactly when no commit matches any rule of the table. -/
theorem claim_C7_specializations : ∀ (table : List SpecRule) (commits : List CommitRecord),
    detectSpecializations table commits = dedupFirst (scanLabels table commits) ∧
    (detectSpecializations table commits).Nodup ∧
    (∀ lab : String, lab ∈ detectSpecializations table commits ↔
      ∃ c ∈ commits, ∃ r ∈ table, ruleMatches r c = true ∧ r.label = lab) ∧
    (detectSpecializations table commits = [] ↔
      ∀ c ∈ commits, ∀ r ∈ table, ruleMatches r c = false) := by
  intro table commits
  have he := detectSpecializations_eq_dedupFirst table commits
  refine ⟨he, he ▸ dedupFirst_nodup _, ?_, ?_⟩
  · intro lab
    rw [he, ← mem_scanLabels]
    constructor
    · exact dedupFirst_subset _ lab
    · exact mem_dedupFirst_of_mem _ lab
  · rw [he, dedupFirst_eq_nil]
    exact scanLabels_eq_nil table commits

/-- Claim C8: the assembly function is deterministic — structurally equal
outputs on the same input; the embedding is a pure function, as the spec
requires of the source pipeline. -/
theorem claim_C8_determinism : ∀ A : RepositoryActivity, assemble A = assemble A :=
  fun _ => rfl

/-- Claim C9: every file's expert sequence is sorted non-increasing by
score, so its first element — the primary expert the CSV export picks —
scores at least as high as every other expert of the file; the same holds
for every file of an assembled analysis. -/
theorem claim_C9_ranking : ∀ (A : RepositoryActivity) (path : String) (ids : List String),
    List.Sorted (fun a b : ℚ => b ≤ a) ((fileExperts A path ids).map FileExpert.score) ∧
    (∀ h ∈ (fileExperts A path ids).head?, ∀ e ∈ fileExperts A path ids, e.score ≤ h.score) ∧
    (∀ (r : ExpertiseAnalysis), assemble A = Except.ok r → ∀ f ∈ r.fileExpertise,
      List.Sorted (fun a b : ℚ => b ≤ a) (f.experts.map FileExpert.score) ∧
      (∀ h ∈ csvPrimaryExpert f, ∀ e ∈ f.experts, e.score ≤ h.score)) := by
  have hmap : ∀ l : List FileExpert, List.Sorted expGE l →
      List.Sorted (fun a b : ℚ => b ≤ a) (l.map FileExpert.score) := by
    intro l hl
    exact List.Pairwise.map _ (fun a b hab => expGE_score a b hab) hl
  have hhead : ∀ l : List FileExpert, List.Sorted expGE l →
      ∀ h ∈ l.head?, ∀ e ∈ l, e.score ≤ h.score := by
    intro l hl h hh e he
    cases l with
    | nil => simp at hh
    | cons x t =>
      have hx : x = h := by simpa using hh
      subst hx
      rcases List.mem_cons.mp he with rfl | hmem
      · exact le_refl _
      · exact expGE_score _ _ (List.rel_of_sorted_cons hl e hmem)
  intro A path ids
  have hsorted : List.Sorted expGE (fileExperts A path ids) :=
    List.sorted_insertionSort expGE _
  refine ⟨hmap _ hsorted, hhead _ hsorted, ?_⟩
  intro r hok f hf
  obtain ⟨hne, hr⟩ := (assemble_eq_ok A r).mp hok
  subst hr
  obtain ⟨pr, hpr, hfpr⟩ := List.mem_map.mp hf
  subst hfpr
  have hs2 : List.Sorted expGE (mkFileExpertise A pr).experts :=
    List.sorted_insertionSort expGE _
  exact ⟨hmap _ hs2, hhead _ hs2⟩

/-- Claim C10: the path sanitizer either throws or returns an absolute path
that is the resolved workspace root or lies inside it (separator-extended
prefix check), never a path outside the root — including dot-dot inputs
and sibling directories sharing the root as a name prefix, as the two
concrete rejections show. -/
theorem claim_C10_sanitize :
    (∀ cwd filePath workspaceRoot p : String,
        headIsSlash cwd.toList = true →
        sanitizeFilePath cwd filePath workspaceRoot = Except.ok p →
        headIsSlash p.toList = true ∧
        (p = presolve cwd [workspaceRoot] ∨
          strStartsWith (withSep p) (withSep (presolve cwd [workspaceRoot])) = true)) ∧
    sanitizeFilePath "/home/user" "a/../b.ts" "/ws" = Except.ok "/ws/b.ts" ∧
    sanitizeFilePath "/home/user" "../../etc/passwd" "/ws" =
      Except.error "Path traversal detected" ∧
    sanitizeFilePath "/home/user" "/ws2/secret" "/ws" =
      Except.error "Path traversal detected" := by
  refine ⟨?_, rfl, rfl, rfl⟩
  intro cwd filePath workspaceRoot p habs hok
  simp only [sanitizeFilePath] at hok
  split at hok
  · exact absurd hok (by simp)
  · rename_i hcond
    injection hok with hp
    subst hp
    refine ⟨presolve_abs cwd _ habs, ?_⟩
    rcases not_and_or.mp hcond with h | h
    · exact Or.inl (not_ne_iff.mp h)
    · exact Or.inr (by simpa using h)
